import Mathlib

/-!
# Verification of the chunked multipart upload client

A shallow embedding of `examples/client.py`: the chunked file reader
(`file_sender`), the multipart form-data assembly, the response handling
(`print` then `assert 201 == resp.status`), and the resource/error model
described by the specification.

Files are modelled as lists of bytes (`List Nat`); the asynchronous
generator `file_sender` becomes a recursive function producing the list of
chunks it yields.
-/

namespace Client

/-- A byte of a file's contents. -/
abbrev Byte := Nat

/-- The fixed chunk size `64*1024` used by `f.read(64*1024)` in `file_sender`. -/
def chunkSize : Nat := 64 * 1024

/-- One `await f.read(64*1024)` at the given remaining-file position:
returns up to `chunkSize` bytes from the front. -/
def read (file : List Byte) : List Byte := file.take chunkSize

/-- The chunk sequence yielded by `file_sender` in `client.py`:
`chunk = await f.read(64*1024); while chunk: yield chunk; chunk = await f.read(64*1024)`.
The remaining file contents stand for the handle's read position. -/
def file_sender (file : List Byte) : List (List Byte) :=
  if h : (read file).isEmpty then []
  else read file :: file_sender (file.drop chunkSize)
termination_by file.length
decreasing_by
  have hne : file ≠ [] := by
    intro hf
    simp [read, hf] at h
  have hpos : 0 < file.length := List.length_pos.mpr hne
  have hc : 0 < chunkSize := by decide
  simp only [List.length_drop]
  omega

theorem chunkSize_pos : 0 < chunkSize := by decide

theorem read_eq_nil_iff (file : List Byte) : read file = [] ↔ file = [] := by
  simp [read, List.take_eq_nil_iff, chunkSize]

theorem file_sender_nil : file_sender ([] : List Byte) = [] := by
  rw [file_sender]
  simp [read]

theorem file_sender_cons (file : List Byte) (h : file ≠ []) :
    file_sender file = read file :: file_sender (file.drop chunkSize) := by
  rw [file_sender]
  have : ¬ (read file).isEmpty := by
    simp [List.isEmpty_iff, read_eq_nil_iff, h]
  simp [this]

theorem file_sender_eq_nil_iff (file : List Byte) : file_sender file = [] ↔ file = [] := by
  constructor
  · intro h
    by_contra hne
    rw [file_sender_cons file hne] at h
    exact List.cons_ne_nil _ _ h
  · intro h
    rw [h, file_sender_nil]

/-- Concatenating the yielded chunks in delivery order reproduces the file. -/
theorem file_sender_flatten (file : List Byte) : (file_sender file).flatten = file := by
  induction file using file_sender.induct with
  | case1 f h =>
    have : f = [] := by
      rw [← read_eq_nil_iff]
      exact List.isEmpty_iff.mp h
    rw [this, file_sender_nil]
    simp
  | case2 f h ih =>
    have hne : f ≠ [] := by
      intro hf
      apply h
      simp [read, hf]
    rw [file_sender_cons f hne]
    simp only [List.flatten_cons, ih]
    exact List.take_append_drop chunkSize f

/-- The chunk lengths sum to the file size. -/
theorem file_sender_sum_lengths (file : List Byte) :
    ((file_sender file).map List.length).sum = file.length := by
  have := congrArg List.length (file_sender_flatten file)
  rwa [List.length_flatten] at this

/-- Every yielded chunk is nonempty. -/
theorem file_sender_chunks_ne_nil (file : List Byte) :
    ∀ c ∈ file_sender file, c ≠ [] := by
  induction file using file_sender.induct with
  | case1 f h =>
    have : f = [] := by
      rw [← read_eq_nil_iff]
      exact List.isEmpty_iff.mp h
    rw [this, file_sender_nil]
    simp
  | case2 f h ih =>
    have hne : f ≠ [] := by
      intro hf
      apply h
      simp [read, hf]
    rw [file_sender_cons f hne]
    intro c hc
    rcases List.mem_cons.mp hc with hc | hc
    · rw [hc, Ne, read_eq_nil_iff]
      exact hne
    · exact ih c hc

/-- Every yielded chunk has length at most `chunkSize`. -/
theorem file_sender_chunks_le (file : List Byte) :
    ∀ c ∈ file_sender file, c.length ≤ chunkSize := by
  induction file using file_sender.induct with
  | case1 f h =>
    have : f = [] := by
      rw [← read_eq_nil_iff]
      exact List.isEmpty_iff.mp h
    rw [this, file_sender_nil]
    simp
  | case2 f h ih =>
    have hne : f ≠ [] := by
      intro hf
      apply h
      simp [read, hf]
    rw [file_sender_cons f hne]
    intro c hc
    rcases List.mem_cons.mp hc with hc | hc
    · rw [hc]
      simp [read]
    · exact ih c hc

/-- Every chunk except possibly the last has length exactly `chunkSize`. -/
theorem file_sender_full_chunks (file : List Byte) :
    ∀ c ∈ (file_sender file).dropLast, c.length = chunkSize := by
  induction file using file_sender.induct with
  | case1 f h =>
    have : f = [] := by
      rw [← read_eq_nil_iff]
      exact List.isEmpty_iff.mp h
    rw [this, file_sender_nil]
    simp
  | case2 f h ih =>
    have hne : f ≠ [] := by
      intro hf
      apply h
      simp [read, hf]
    rw [file_sender_cons f hne]
    rcases hrest : file_sender (f.drop chunkSize) with _ | ⟨b, l⟩
    · simp
    · intro c hc
      rw [List.dropLast_cons₂] at hc
      rcases List.mem_cons.mp hc with hc | hc
      · have hdrop : f.drop chunkSize ≠ [] := by
          intro hd
          have hnil := (file_sender_eq_nil_iff (f.drop chunkSize)).mpr hd
          rw [hrest] at hnil
          exact List.cons_ne_nil _ _ hnil
        have hlen : chunkSize ≤ f.length := by
          by_contra hlt
          push_neg at hlt
          exact hdrop (List.drop_eq_nil_of_le (Nat.le_of_lt hlt))
        rw [hc]
        simp [read, Nat.min_eq_left hlen]
      · rw [← hrest] at hc
        exact ih c hc

/-- When the file's size is an exact multiple `k * chunkSize`, exactly `k`
chunks are yielded, each of length exactly `chunkSize`. -/
theorem file_sender_exact_multiple (k : Nat) :
    ∀ file : List Byte, file.length = k * chunkSize →
      (file_sender file).length = k ∧ ∀ c ∈ file_sender file, c.length = chunkSize := by
  induction k with
  | zero =>
    intro file h
    have hfile : file = [] := List.length_eq_zero.mp (by omega)
    rw [hfile, file_sender_nil]
    simp
  | succ k ih =>
    intro file h
    have hge : chunkSize ≤ file.length := by
      rw [h, Nat.succ_mul]
      omega
    have hne : file ≠ [] := by
      intro hf
      rw [hf] at hge
      simp at hge
      have := chunkSize_pos
      omega
    rw [file_sender_cons file hne]
    have hdrop : (file.drop chunkSize).length = k * chunkSize := by
      rw [List.length_drop, h, Nat.succ_mul]
      omega
    obtain ⟨hlen, hchunks⟩ := ih (file.drop chunkSize) hdrop
    refine ⟨by simp [hlen], ?_⟩
    intro c hc
    rcases List.mem_cons.mp hc with hc | hc
    · rw [hc]
      simp [read, Nat.min_eq_left hge]
    · exact hchunks c hc

/-- C1: iterating `file_sender` until end-of-stream yields chunks whose lengths
sum to exactly the file's size, every chunk except possibly the last has length
exactly `chunkSize = 65536`, and their concatenation in delivery order equals
the file's byte sequence. -/
theorem chunked_reading_correct (file : List Byte) :
    ((file_sender file).map List.length).sum = file.length ∧
    (∀ c ∈ (file_sender file).dropLast, c.length = chunkSize) ∧
    (file_sender file).flatten = file :=
  ⟨file_sender_sum_lengths file, file_sender_full_chunks file, file_sender_flatten file⟩

theorem chunked_reading_correct_witness :
    ((file_sender [1, 2, 3]).map List.length).sum = 3 ∧
    (file_sender [1, 2, 3]).flatten = [1, 2, 3] :=
  ⟨(chunked_reading_correct [1, 2, 3]).1, (chunked_reading_correct [1, 2, 3]).2.2⟩

/-- C5: a 0-byte file yields end-of-stream immediately with zero chunks
delivered, and any position at which a read returns zero bytes terminates the
stream. -/
theorem zero_length_file_immediate_end :
    file_sender ([] : List Byte) = [] ∧
    ∀ file : List Byte, read file = [] → file_sender file = [] := by
  refine ⟨file_sender_nil, ?_⟩
  intro file h
  rw [(read_eq_nil_iff file).mp h, file_sender_nil]

theorem zero_length_file_immediate_end_witness :
    file_sender ([] : List Byte) = [] :=
  zero_length_file_immediate_end.2 [] (by simp [read])

/-- C10: every yielded chunk is non-empty, and for a file whose size is an exact
multiple `k * chunkSize`, exactly `k` chunks are delivered, each of length
exactly `chunkSize`, with no trailing zero-length chunk. -/
theorem chunks_nonempty_and_exact_multiple (file : List Byte) (k : Nat) :
    (∀ c ∈ file_sender file, c ≠ []) ∧
    (file.length = k * chunkSize →
      (file_sender file).length = k ∧ ∀ c ∈ file_sender file, c.length = chunkSize) :=
  ⟨file_sender_chunks_ne_nil file, fun h => file_sender_exact_multiple k file h⟩

theorem chunks_nonempty_and_exact_multiple_witness :
    (file_sender (List.replicate (2 * chunkSize) 37)).length = 2 :=
  ((chunks_nonempty_and_exact_multiple (List.replicate (2 * chunkSize) 37) 2).2
    (by simp)).1

/-! ## Multipart form assembly

The body encoding lives in `aiohttp.FormData`, outside this repository; the
definitions below are modelled from the specification's description of
`build_body`, `add_field` and the header-quoting policy, and instantiated with
the exact six `add_field` calls of `client.py`. -/

/-- The two kinds of part content used in `client.py`: a streamed file (drained
via `file_sender`) or a plain text value. -/
inductive FieldContent
  | fileStream (file : List Byte)
  | text (value : String)

/-- One field of the form body: field name, optional filename, content source. -/
structure MultipartField where
  name : String
  filename : Option String
  content : FieldContent

/-- Modelled from the spec: the form state of `aiohttp.FormData` (not part of
this repository) — an ordered sequence of fields plus the `quote_fields` flag. -/
structure FormData where
  quote_fields : Bool
  fields : List MultipartField

/-- Modelled from the spec: `add_field` registers one more part at the end;
insertion order is kept and field-name uniqueness is not enforced. -/
def FormData.add_field (d : FormData) (f : MultipartField) : FormData :=
  { d with fields := d.fields ++ [f] }

/-- Modelled from the spec: standard quoted-string escaping of one character
(backslash-escape the double quote and the backslash). -/
def escapeChar (c : Char) : List Char :=
  if c = '"' ∨ c = '\\' then ['\\', c] else [c]

/-- Modelled from the spec: standard quoted-string escaping applied to a field
name or filename when quoting is enabled. -/
def escapeQuoted (s : String) : String := ⟨s.data.flatMap escapeChar⟩

/-- Modelled from the spec: how a field name or filename is rendered into the
`Content-Disposition` header — verbatim when `quote_fields` is false, with
quoted-string escaping when it is true. -/
def renderName (q : Bool) (s : String) : String :=
  if q then escapeQuoted s else s

/-- Modelled from the spec: the filename parameter of the header, when present. -/
def filenameSection (q : Bool) : Option String → String
  | some fn => "; filename=\"" ++ renderName q fn ++ "\""
  | none => ""

/-- Modelled from the spec: the `Content-Disposition` value generated for one
field. -/
def contentDisposition (q : Bool) (f : MultipartField) : String :=
  "form-data; name=\"" ++ renderName q f.name ++ "\"" ++ filenameSection q f.filename

/-- One encoded part of the multipart body. -/
structure Part where
  disposition : String
  payload : List Byte

/-- Modelled from the spec: a file field's payload is drained chunk-by-chunk
from `file_sender` and written in delivery order; a text field's value is UTF-8
encoded. -/
def fieldPayload : FieldContent → List Byte
  | FieldContent.fileStream file => (file_sender file).flatten
  | FieldContent.text v => v.toUTF8.toList.map UInt8.toNat

/-- Modelled from the spec: `build_body` renders one part per field, in field
order. -/
def build_body (d : FormData) : List Part :=
  d.fields.map fun f => ⟨contentDisposition d.quote_fields f, fieldPayload f.content⟩

/-- The six `add_field` calls of `req` in `client.py`, over the bytes of
`test.png` (the same source file backs all three file parts). -/
def referenceForm (testFile : List Byte) : FormData :=
  ((((((FormData.mk false []).add_field
      ⟨"files[]", some "image1.png", FieldContent.fileStream testFile⟩).add_field
      ⟨"files[]", some "image2.png", FieldContent.fileStream testFile⟩).add_field
      ⟨"files[]", some "image3.png", FieldContent.fileStream testFile⟩).add_field
      ⟨"Hey", none, FieldContent.text "hi"⟩).add_field
      ⟨"Hi[One]", none, FieldContent.text "1"⟩).add_field
      ⟨"Hi[Two]", none, FieldContent.text "2.0"⟩

theorem foldl_add_field (d : FormData) (fs : List MultipartField) :
    (fs.foldl FormData.add_field d).fields = d.fields ++ fs ∧
    (fs.foldl FormData.add_field d).quote_fields = d.quote_fields := by
  induction fs generalizing d with
  | nil => simp
  | cons f fs ih =>
    simp only [List.foldl_cons]
    obtain ⟨h1, h2⟩ := ih (d.add_field f)
    refine ⟨?_, ?_⟩
    · rw [h1]
      simp [FormData.add_field]
    · rw [h2]
      simp [FormData.add_field]

/-- C2: the encoded body contains one part per added field, their
`Content-Disposition` sections appearing in exactly insertion order; in the
reference scenario that order is files[]/image1.png, files[]/image2.png,
files[]/image3.png, Hey, Hi[One], Hi[Two]. -/
theorem field_order_preserved (d : FormData) (fs : List MultipartField) (t : List Byte) :
    (build_body (fs.foldl FormData.add_field d)).map Part.disposition =
      (d.fields ++ fs).map (contentDisposition d.quote_fields) ∧
    (build_body (referenceForm t)).map Part.disposition =
      ["form-data; name=\"files[]\"; filename=\"image1.png\"",
       "form-data; name=\"files[]\"; filename=\"image2.png\"",
       "form-data; name=\"files[]\"; filename=\"image3.png\"",
       "form-data; name=\"Hey\"",
       "form-data; name=\"Hi[One]\"",
       "form-data; name=\"Hi[Two]\""] := by
  constructor
  · obtain ⟨h1, h2⟩ := foldl_add_field d fs
    simp only [build_body, h1, h2, List.map_map, List.map_append]
    rfl
  · rfl

theorem field_order_preserved_witness :
    (build_body (referenceForm [1, 2, 3])).map Part.disposition =
      ["form-data; name=\"files[]\"; filename=\"image1.png\"",
       "form-data; name=\"files[]\"; filename=\"image2.png\"",
       "form-data; name=\"files[]\"; filename=\"image3.png\"",
       "form-data; name=\"Hey\"",
       "form-data; name=\"Hi[One]\"",
       "form-data; name=\"Hi[Two]\""] :=
  (field_order_preserved (FormData.mk false []) [] [1, 2, 3]).2

/-- C4: the three file fields sharing the field name `files[]` but with
distinct filenames yield three distinct parts, each carrying its own content
stream; none overwrites or replaces another. -/
theorem repeated_field_names_independent (t : List Byte) :
    ((referenceForm t).fields.take 3).map MultipartField.name =
      ["files[]", "files[]", "files[]"] ∧
    (build_body (referenceForm t)).take 3 =
      [⟨"form-data; name=\"files[]\"; filename=\"image1.png\"", (file_sender t).flatten⟩,
       ⟨"form-data; name=\"files[]\"; filename=\"image2.png\"", (file_sender t).flatten⟩,
       ⟨"form-data; name=\"files[]\"; filename=\"image3.png\"", (file_sender t).flatten⟩] ∧
    (((build_body (referenceForm t)).take 3).map Part.disposition).Pairwise (· ≠ ·) := by
  refine ⟨rfl, rfl, ?_⟩
  have h : ((build_body (referenceForm t)).take 3).map Part.disposition =
      ["form-data; name=\"files[]\"; filename=\"image1.png\"",
       "form-data; name=\"files[]\"; filename=\"image2.png\"",
       "form-data; name=\"files[]\"; filename=\"image3.png\""] := rfl
  rw [h]
  decide

theorem repeated_field_names_independent_witness :
    ((referenceForm [1, 2, 3]).fields.take 3).map MultipartField.name =
      ["files[]", "files[]", "files[]"] :=
  (repeated_field_names_independent [1, 2, 3]).1

/-- C8: with `quote_fields` false, every field name and filename (including
bracketed names such as `Hi[One]`) is embedded verbatim in the generated
`Content-Disposition` header; with the flag true, the quoted-string escaped
form of the same name is embedded instead. -/
theorem quote_fields_policy (f : MultipartField) :
    (∃ s t, (contentDisposition false f).data = s ++ f.name.data ++ t) ∧
    (∀ fn, f.filename = some fn →
      ∃ s t, (contentDisposition false f).data = s ++ fn.data ++ t) ∧
    (∃ s t, (contentDisposition true f).data = s ++ (escapeQuoted f.name).data ++ t) ∧
    contentDisposition false ⟨"Hi[One]", none, FieldContent.text "1"⟩ =
      "form-data; name=\"Hi[One]\"" := by
  refine ⟨?_, ?_, ?_, rfl⟩
  · refine ⟨"form-data; name=\"".data, ("\"" ++ filenameSection false f.filename).data, ?_⟩
    simp [contentDisposition, renderName, String.data_append, List.append_assoc]
  · intro fn hfn
    refine ⟨("form-data; name=\"" ++ f.name ++ "\"" ++ "; filename=\"").data, "\"".data, ?_⟩
    simp [contentDisposition, renderName, filenameSection, hfn,
      String.data_append, List.append_assoc]
  · refine ⟨"form-data; name=\"".data, ("\"" ++ filenameSection true f.filename).data, ?_⟩
    simp [contentDisposition, renderName, String.data_append, List.append_assoc]

theorem quote_fields_policy_witness :
    ∃ s t, (contentDisposition false
        ⟨"files[]", some "image1.png", FieldContent.text ""⟩).data =
      s ++ ("image1.png" : String).data ++ t :=
  (quote_fields_policy
    ⟨"files[]", some "image1.png", FieldContent.text ""⟩).2.1 "image1.png" rfl

/-! ## Response handling -/

/-- The HTTP response as consumed by `req`: status code and body text. -/
structure UploadResponse where
  status : Nat
  text : String

/-- The failure signalled by `assert 201 == resp.status`. -/
inductive AssertionFailure
  | statusMismatch (expected actual : Nat)
deriving DecidableEq

/-- The status assertion `assert expected == resp.status` of `client.py`,
embedded as a fallible computation. -/
def validate (resp : UploadResponse) (expected : Nat) : Except AssertionFailure Unit :=
  if expected == resp.status then Except.ok ()
  else Except.error (AssertionFailure.statusMismatch expected resp.status)

/-- Whether a validation succeeded. -/
def succeeded : Except AssertionFailure Unit → Bool
  | Except.ok _ => true
  | Except.error _ => false

/-- Observable actions of the response-handling tail of `req`. -/
inductive Event
  | printed (text : String)
  | validated (ok : Bool)
deriving DecidableEq

/-- Whether an event is the evaluation of the status assertion. -/
def isValidation : Event → Bool
  | Event.validated _ => true
  | _ => false

/-- `print(text)` as an observable action. -/
def printAction (s : String) : List Event := [Event.printed s]

/-- `assert 201 == resp.status` as an observable action. -/
def assertAction (ok : Bool) : List Event := [Event.validated ok]

/-- The response-handling tail of `req` in `client.py`:
`text = await resp.text(); print(text); assert 201 == resp.status`. -/
def handleResponse (resp : UploadResponse) : List Event :=
  printAction resp.text ++ assertAction (succeeded (validate resp 201))

/-- C3: `validate` succeeds iff the response status equals the expected status;
a 400 response against the expected 201 yields the assertion-kind failure, and
the assertion is evaluated exactly once per response — no retry or recovery. -/
theorem validate_status_check (resp : UploadResponse) (expected : Nat) :
    (succeeded (validate resp expected) = true ↔ resp.status = expected) ∧
    (resp.status ≠ expected →
      validate resp expected =
        Except.error (AssertionFailure.statusMismatch expected resp.status)) ∧
    (resp.status = 400 →
      validate resp 201 = Except.error (AssertionFailure.statusMismatch 201 400)) ∧
    (handleResponse resp).countP isValidation = 1 := by
  refine ⟨?_, ?_, ?_, rfl⟩
  · by_cases h : expected = resp.status
    · simp [validate, succeeded, h]
    · have hb : (expected == resp.status) = false := by simp [h]
      simp [validate, succeeded, hb]
      intro hc
      exact h hc.symm
  · intro h
    have hb : (expected == resp.status) = false := by
      simp
      intro hc
      exact h hc.symm
    simp [validate, hb]
  · intro h
    simp [validate, h]

theorem validate_status_check_witness :
    validate ⟨400, "Bad Request"⟩ 201 =
      Except.error (AssertionFailure.statusMismatch 201 400) :=
  (validate_status_check ⟨400, "Bad Request"⟩ 201).2.2.1 rfl

/-- C9: in the trace of `req`'s response handling, the body text is printed
strictly before the status assertion is evaluated — every occurrence of the
validation event is preceded by the printing of the response body. -/
theorem body_printed_before_assert (resp : UploadResponse) (i : Nat) (b : Bool)
    (h : (handleResponse resp)[i]? = some (Event.validated b)) :
    ∃ j, j < i ∧ (handleResponse resp)[j]? = some (Event.printed resp.text) := by
  match i with
  | 0 => simp [handleResponse, printAction, assertAction] at h
  | 1 => exact ⟨0, Nat.zero_lt_one, rfl⟩
  | n + 2 => simp [handleResponse, printAction, assertAction] at h

theorem body_printed_before_assert_witness :
    ∃ j, j < 1 ∧ (handleResponse ⟨201, "ok"⟩)[j]? = some (Event.printed "ok") :=
  body_printed_before_assert ⟨201, "ok"⟩ 1 true rfl

/-! ## File-access errors

`aiofiles.open` and the read path are external to this repository; the error
behaviour below is modelled from the specification's error taxonomy. -/

/-- The error kinds of the spec's taxonomy for file access. -/
inductive FileError
  | fileNotFound (path : String)
  | ioError
deriving DecidableEq

/-- Modelled from the spec: `open(path) -> stream` (the `aiofiles.open` call,
external to this repository) fails with a `FileNotFoundError`-kind error when
the path does not exist or is unreadable; the file system is abstracted as a
map from paths to optional contents. -/
def openFile (fs : String → Option (List Byte)) (path : String) :
    Except FileError (List Byte) :=
  match fs path with
  | some content => Except.ok content
  | none => Except.error (FileError.fileNotFound path)

/-- Modelled from the spec: a fault during a read fails with an `IOError`-kind
error; otherwise the read returns the next chunk. -/
def readChunk (fault : Bool) (file : List Byte) : Except FileError (List Byte) :=
  if fault then Except.error FileError.ioError else Except.ok (read file)

/-- Modelled from the spec: draining one file field through `file_sender`; an
open failure propagates. -/
def streamField (fs : String → Option (List Byte)) (path : String) :
    Except FileError (List (List Byte)) :=
  match openFile fs path with
  | Except.ok content => Except.ok (file_sender content)
  | Except.error e => Except.error e

/-- Modelled from the spec: the single send pass drains the file fields in
order; the first failure aborts the in-progress request immediately, with no
retry and no recovery. -/
def sendRequest (fs : String → Option (List Byte)) :
    List String → Except FileError (List (List (List Byte)))
  | [] => Except.ok []
  | p :: ps =>
    match streamField fs p with
    | Except.error e => Except.error e
    | Except.ok chunks =>
      match sendRequest fs ps with
      | Except.error e => Except.error e
      | Except.ok rest => Except.ok (chunks :: rest)

/-- C6: opening a missing or unreadable path fails with the
`FileNotFoundError`-kind error, a faulted read fails with the `IOError`-kind
error, and the open failure aborts the in-progress request immediately — the
whole request fails with that error, regardless of the remaining fields, with
no retry. -/
theorem open_failure_aborts (fs : String → Option (List Byte)) (path : String)
    (rest : List String) (h : fs path = none) :
    openFile fs path = Except.error (FileError.fileNotFound path) ∧
    sendRequest fs (path :: rest) = Except.error (FileError.fileNotFound path) ∧
    ∀ file fault, fault = true → readChunk fault file = Except.error FileError.ioError := by
  refine ⟨?_, ?_, ?_⟩
  · simp [openFile, h]
  · simp [sendRequest, streamField, openFile, h]
  · intro file fault hf
    simp [readChunk, hf]

theorem open_failure_aborts_witness :
    sendRequest (fun _ => none) ["missing.png", "other.png"] =
      Except.error (FileError.fileNotFound "missing.png") :=
  (open_failure_aborts (fun _ => none) "missing.png" ["other.png"] rfl).2.1

/-! ## File-handle lifecycle

`file_sender` scopes the handle with `async with aiofiles.open(...)`; the
close-on-every-exit semantics of that bracket (normal completion, early
abandonment of the generator, error unwind) lives in the runtime outside this
repository and is modelled from the specification. -/

/-- Handle-lifecycle events of one `file_sender` stream. -/
inductive HandleEvent
  | opened
  | yielded (chunk : List Byte)
  | raised
  | closed
deriving DecidableEq

/-- The ways a consumer can leave a `file_sender` stream. -/
inductive ExitMode
  | exhausted
  | abandoned (k : Nat)
  | faulted (k : Nat)

/-- Modelled from the spec: scoped acquisition — the `async with` bracket opens
the handle, runs its body, and closes the handle on scope exit, on every exit
path. -/
def withHandle (body : List HandleEvent) : List HandleEvent :=
  HandleEvent.opened :: body ++ [HandleEvent.closed]

/-- The body events of one `file_sender` run: all chunks on exhaustion; the
first `k` chunks when the consumer abandons the stream early; the first `k`
chunks followed by the raised read error when a read faults. -/
def senderBody (file : List Byte) : ExitMode → List HandleEvent
  | ExitMode.exhausted => (file_sender file).map HandleEvent.yielded
  | ExitMode.abandoned k => ((file_sender file).take k).map HandleEvent.yielded
  | ExitMode.faulted k =>
      ((file_sender file).take k).map HandleEvent.yielded ++ [HandleEvent.raised]

/-- The full handle trace of one `file_sender` stream under a given exit mode. -/
def senderTrace (file : List Byte) (m : ExitMode) : List HandleEvent :=
  withHandle (senderBody file m)

theorem senderBody_no_handle_events (file : List Byte) (m : ExitMode) :
    HandleEvent.opened ∉ senderBody file m ∧ HandleEvent.closed ∉ senderBody file m := by
  have key : ∀ (l : List (List Byte)) (e : HandleEvent), e ∈ l.map HandleEvent.yielded →
      e ≠ HandleEvent.opened ∧ e ≠ HandleEvent.closed := by
    intro l e he
    obtain ⟨c, _, hc⟩ := List.mem_map.mp he
    rw [← hc]
    exact ⟨fun h => HandleEvent.noConfusion h, fun h => HandleEvent.noConfusion h⟩
  cases m with
  | exhausted =>
    exact ⟨fun h => (key _ _ h).1 rfl, fun h => (key _ _ h).2 rfl⟩
  | abandoned k =>
    exact ⟨fun h => (key _ _ h).1 rfl, fun h => (key _ _ h).2 rfl⟩
  | faulted k =>
    constructor
    · intro h
      rcases List.mem_append.mp h with h | h
      · exact (key _ _ h).1 rfl
      · simp at h
    · intro h
      rcases List.mem_append.mp h with h | h
      · exact (key _ _ h).2 rfl
      · simp at h

/-- C7: on every exit path of a `file_sender` stream — exhaustion, a read
error, or early abandonment by the consumer — the handle is opened exactly
once, closed exactly once, and the close is the final event of the trace: the
handle stays open only for the stream's lifetime. -/
theorem handle_released_on_all_paths (file : List Byte) (m : ExitMode) :
    (senderTrace file m).count HandleEvent.opened = 1 ∧
    (senderTrace file m).count HandleEvent.closed = 1 ∧
    (senderTrace file m).getLast? = some HandleEvent.closed := by
  obtain ⟨ho, hc⟩ := senderBody_no_handle_events file m
  have h0 : (senderBody file m).count HandleEvent.opened = 0 :=
    List.count_eq_zero.mpr ho
  have h1 : (senderBody file m).count HandleEvent.closed = 0 :=
    List.count_eq_zero.mpr hc
  refine ⟨?_, ?_, ?_⟩
  · simp [senderTrace, withHandle, List.count_cons, List.count_append, h0]
  · simp [senderTrace, withHandle, List.count_cons, List.count_append, h1]
  · show ((HandleEvent.opened :: senderBody file m) ++ [HandleEvent.closed]).getLast? = _
    exact List.getLast?_concat _

theorem handle_released_on_all_paths_witness :
    (senderTrace [1, 2, 3] ExitMode.exhausted).getLast? = some HandleEvent.closed :=
  (handle_released_on_all_paths [1, 2, 3] ExitMode.exhausted).2.2

end Client
